import Mathlib

/-!
Verification of the GitHub repository-stats fetcher of a portfolio page
script (src/script.js).  The relevant fragment is shallowly embedded:

* `Repo` models the parsed JSON payload of one repository
  (`stargazers_count`, `forks_count`, `updated_at` may be absent).
* `GHState` models `App.github`: a JS `Map` (embedded as an association
  list with JS `Map.set`/`Map.get` semantics) plus `lastFetch`.
  `cacheDuration` is the fixed constant `5 * 60 * 1000` ms.
* `fetchGitHubRepos outcome repositories now st` embeds the async
  function of the same name.  The transport is the parameter
  `outcome : String → Option Repo`: the settled value of one request's
  promise chain — `some data` when `fetch` succeeded, `response.ok`
  held and the JSON parsed; `none` when the per-request `.catch`
  converted a failure to `null`.  `Promise.all` preserves positional
  order, so the joined array is `repositories.map outcome`.  The
  embedding returns the result list, the updated state, and the list
  of request URLs issued (empty on a cache hit).  The JS function's
  promise never rejects (every per-request failure is caught and
  mapped to `null`), which the embedding reflects by being total.
* Times are `Nat` milliseconds.  In JS, `now - lastFetch < cacheDuration`
  with `now < lastFetch` yields a negative number, which is `< cacheDuration`;
  truncated `Nat` subtraction gives `0 < cacheDuration` — the same branch.
-/

/-- One parsed repository payload, the subset of the GitHub API response
the script reads.  Absent JSON fields are `none`; the script reads them
as `repo.stargazers_count || 0` etc. -/
structure Repo where
  name : String
  stargazers_count : Option Nat
  forks_count : Option Nat
  updated_at : Option String
deriving DecidableEq, Repr

/-- JS `Map.get`: the value stored under `k`, if any. -/
def mapGet (m : List (String × List Repo)) (k : String) : Option (List Repo) :=
  (m.find? (fun p => p.1 = k)).map (fun p => p.2)

/-- JS `Map.set`: replace the value under `k` if present, else append. -/
def mapSet (m : List (String × List Repo)) (k : String) (v : List Repo) :
    List (String × List Repo) :=
  match m with
  | [] => [(k, v)]
  | (k₀, v₀) :: rest => if k₀ = k then (k, v) :: rest else (k₀, v₀) :: mapSet rest k v

/-- `App.github`: the in-memory cache `Map` and the timestamp of the
last completed fetch. -/
structure GHState where
  cache : List (String × List Repo)
  lastFetch : Nat
deriving DecidableEq, Repr

/-- `App.github`'s initial value: `cache: new Map(), lastFetch: 0`. -/
def initialGithubState : GHState := ⟨[], 0⟩

/-- `cacheDuration: 5 * 60 * 1000` — five minutes in milliseconds. -/
def cacheDuration : Nat := 5 * 60 * 1000

/-- `const username = "karimhelal"`. -/
def username : String := "karimhelal"

/-- Embedding of `fetchGitHubRepos(repositories)` called at time `now`
in state `st`.  Returns `(result, newState, requestedUrls)`.

JS source:
  if (now - App.github.lastFetch < App.github.cacheDuration) {
    const cached = App.github.cache.get("repositories");
    if (cached) return cached;           -- an empty array is truthy
  }
  const promises = repositories.map(repo => fetch(url).then(...).catch(() => null));
  const results = await Promise.all(promises);
  const validResults = results.filter(r => r !== null);
  App.github.cache.set("repositories", validResults);
  App.github.lastFetch = now;
  return validResults;

`Map.get` on a missing key is `undefined` (falsy); any stored array,
including `[]`, is truthy — hence the `match` below. -/
def fetchGitHubRepos (outcome : String → Option Repo) (repositories : List String)
    (now : Nat) (st : GHState) : List Repo × GHState × List String :=
  let results := repositories.map outcome
  let validResults := results.filterMap id
  let requests := repositories.map
    (fun repo => "https://api.github.com/repos/" ++ username ++ "/" ++ repo)
  let fetched : List Repo × GHState × List String :=
    (validResults, ⟨mapSet st.cache "repositories" validResults, now⟩, requests)
  if now - st.lastFetch < cacheDuration then
    match mapGet st.cache "repositories" with
    | some cached => (cached, st, [])
    | none => fetched
  else fetched

/-- The call at time `now` in state `st` takes the fetch path (issues
requests): either the cache window has elapsed, or no result set was
ever cached. -/
def cacheMiss (st : GHState) (now : Nat) : Prop :=
  cacheDuration ≤ now - st.lastFetch ∨ mapGet st.cache "repositories" = none

instance (st : GHState) (now : Nat) : Decidable (cacheMiss st now) := by
  unfold cacheMiss; infer_instance

/-- The cache is fresh at time `now`: a result set is stored and the
window has not elapsed. -/
def isFresh (st : GHState) (now : Nat) : Prop :=
  now - st.lastFetch < cacheDuration ∧ mapGet st.cache "repositories" ≠ none

instance (st : GHState) (now : Nat) : Decidable (isFresh st now) := by
  unfold isFresh; infer_instance

example :
    fetchGitHubRepos (fun _ => none) ["a", "b"] 0 initialGithubState =
      ([], ⟨[("repositories", [])], 0⟩,
        ["https://api.github.com/repos/karimhelal/a",
         "https://api.github.com/repos/karimhelal/b"]) := by
  decide

/-!  The slug function.  `getRepoSlug` lowercases, collapses every
maximal run of characters outside `[a-z0-9]` to a single `-`
(the regex `/[^a-z0-9]+/g → "-"`), then deletes one leading and one
trailing `-` (the regex `/(^-|-$)/g → ""`; with the `g` flag, `^-` can
match only at position 0 and `-$` only at the last character, so the
replacement removes at most one hyphen at each end — on the one-character
string `"-"` the single match `^-` leaves `""`, which the composition of
the two one-sided strips also yields).  Strings are embedded as
`List Char`; `toLowerCase` is embedded character-wise on ASCII (code
points 65–90 map to +32), which agrees with JS on every character that
can survive the `[^a-z0-9]` filter. -/

/-- Character predicate of the regex class `[a-z0-9]`
(code points 97–122 and 48–57). -/
def isAlnumChar (c : Char) : Bool :=
  (97 ≤ c.toNat && c.toNat ≤ 122) || (48 ≤ c.toNat && c.toNat ≤ 57)

/-- ASCII embedding of `String.prototype.toLowerCase` for one character:
`A`–`Z` (65–90) map to `a`–`z`, everything else is unchanged. -/
def jsToLower (c : Char) : Char :=
  if 65 ≤ c.toNat ∧ c.toNat ≤ 90 then Char.ofNat (c.toNat + 32) else c

/-- The replacement `/[^a-z0-9]+/g → "-"` as a left-to-right scan:
`prevDash` records that the current position is inside a run of
non-matching characters whose `-` has already been emitted. -/
def collapseAux (prevDash : Bool) : List Char → List Char
  | [] => []
  | c :: cs =>
    if isAlnumChar c then c :: collapseAux false cs
    else if prevDash then collapseAux true cs
    else '-' :: collapseAux true cs

/-- One-sided strip: remove a single leading hyphen if present. -/
def stripLead : List Char → List Char
  | [] => []
  | c :: rest => if c = '-' then rest else c :: rest

/-- Embedding of `getRepoSlug(repoName)`:
`.toLowerCase().replace(/[^a-z0-9]+/g, "-").replace(/(^-|-$)/g, "")`. -/
def getRepoSlug (s : List Char) : List Char :=
  (stripLead (stripLead (collapseAux false (s.map jsToLower))).reverse).reverse

/-- String-typed wrapper of `getRepoSlug`. -/
def getRepoSlugStr (s : String) : String := ⟨getRepoSlug s.data⟩

example : getRepoSlugStr "Fifa-World-Cup-Qatar-2022" = "fifa-world-cup-qatar-2022" := by decide
example : getRepoSlugStr "--Hello,  World!--" = "hello-world" := by decide
example : getRepoSlugStr "-" = "" := by decide

/-!  The rendering layer.  DOM mutations are embedded as a list of
`DomWrite` events; which target elements exist on the page is supplied
by the parameters `numCards` (length of `$$(".project-card")`),
`hasStars`/`hasForks` (whether the card contains `#<slug>-stars` /
`#<slug>-forks`) and `hasContainer` (whether `$(".github-stats")`
exists). -/

/-- One DOM mutation performed by the rendering functions. -/
inductive DomWrite where
  /-- `animateStatNumber` on `#<slug>-stars` reaching `value`. -/
  | projectStars (slug : String) (value : Nat)
  /-- `animateStatNumber` on `#<slug>-forks` reaching `value`. -/
  | projectForks (slug : String) (value : Nat)
  /-- The `Updated …` label appended by `addLastUpdatedInfo`. -/
  | lastUpdated (updatedAt : String)
  /-- The totals block written into `.github-stats`container. -/
  | totals (stars forks repoCount : Nat)
  /-- `hideGitHubStats` setting one element's text to "-". -/
  | placeholder (elementId : String)
deriving DecidableEq, Repr

/-- Embedding of `updateProjectStats(repoData)`.  Each repository is
paired with its index (`forEach`'s second argument); entries at indices
beyond the project-card list are skipped (`index >= projectCards.length`;
the `!repo` guard is vacuous after the `null` filter).  `animateStatNumber`
is an easing animation whose final rendered value is its `target`
argument, `repo.stargazers_count || 0` resp. `repo.forks_count || 0`;
only that final value is modelled.  `addLastUpdatedInfo` returns early
when `updated_at` is absent (its duplicate-label and container checks
are DOM-idempotence guards, elided). -/
def updateProjectStats (numCards : Nat) (hasStars hasForks : String → Bool)
    (repoData : List Repo) : List DomWrite :=
  (repoData.enum.map (fun p =>
    if numCards ≤ p.1 then []
    else
      let slug := getRepoSlugStr p.2.name
      (if hasStars slug then [DomWrite.projectStars slug (p.2.stargazers_count.getD 0)] else []) ++
      (if hasForks slug then [DomWrite.projectForks slug (p.2.forks_count.getD 0)] else []) ++
      (match p.2.updated_at with
       | some u => [DomWrite.lastUpdated u]
       | none => []))).flatten

/-- Embedding of `updateGitHubStats(repoData)`: the two `reduce` sums
over `stargazers_count || 0` and `forks_count || 0`, written into the
stats container (together with `repoData.length`) when it exists. -/
def updateGitHubStats (hasContainer : Bool) (repoData : List Repo) : List DomWrite :=
  let totalStars := repoData.foldl (fun sum repo => sum + repo.stargazers_count.getD 0) 0
  let totalForks := repoData.foldl (fun sum repo => sum + repo.forks_count.getD 0) 0
  if hasContainer then [DomWrite.totals totalStars totalForks repoData.length] else []

/-- Embedding of `hideGitHubStats()`: sets the text of every element
matching `[id$="-stars"], [id$="-forks"]` (the list of their ids is the
parameter) to "-". -/
def hideGitHubStats (statElementIds : List String) : List DomWrite :=
  statElementIds.map DomWrite.placeholder

/-- The fixed repository list of `initGitHubIntegration`. -/
def repositories : List String :=
  ["Fifa-World-Cup-Qatar-2022", "Adidas", "Portfolio", "datasets", "E-learning-platform"]

/-- Embedding of `initGitHubIntegration()`: awaits `fetchGitHubRepos`
on the fixed list, then renders via `updateProjectStats` and
`updateGitHubStats`.  The `catch` branch (which would call
`hideGitHubStats`) is unreachable in the model because the awaited
fetch never rejects — every per-request failure is converted to `null`
inside `fetchGitHubRepos` — so the embedding has no failure path. -/
def initGitHubIntegration (outcome : String → Option Repo) (now : Nat) (st : GHState)
    (numCards : Nat) (hasStars hasForks : String → Bool) (hasContainer : Bool) :
    List DomWrite × GHState :=
  let fetched := fetchGitHubRepos outcome repositories now st
  (updateProjectStats numCards hasStars hasForks fetched.1 ++
     updateGitHubStats hasContainer fetched.1,
   fetched.2.1)

/-!  Basic cache lemmas. -/

theorem mapGet_mapSet (m : List (String × List Repo)) (k : String) (v : List Repo) :
    mapGet (mapSet m k v) k = some v := by
  induction m with
  | nil => simp [mapGet, mapSet]
  | cons p rest ih =>
    obtain ⟨k₀, v₀⟩ := p
    by_cases h : k₀ = k
    · subst h; simp [mapSet, mapGet]
    · simp [mapSet, mapGet, h] at ih ⊢
      exact ih

/-- A cache hit: within the window with a stored entry, the call returns
the entry, leaves the state untouched and issues no request. -/
theorem fetchGitHubRepos_fresh (outcome : String → Option Repo) (repos : List String)
    (now : Nat) (st : GHState) (cached : List Repo)
    (hwin : now - st.lastFetch < cacheDuration)
    (hc : mapGet st.cache "repositories" = some cached) :
    fetchGitHubRepos outcome repos now st = (cached, st, []) := by
  unfold fetchGitHubRepos
  simp [hwin, hc]

/-- A cache miss: the call maps every repository to its request URL,
keeps the non-`null` outcomes, and stores them with the current time. -/
theorem fetchGitHubRepos_miss (outcome : String → Option Repo) (repos : List String)
    (now : Nat) (st : GHState) (h : cacheMiss st now) :
    fetchGitHubRepos outcome repos now st =
      ((repos.map outcome).filterMap id,
       ⟨mapSet st.cache "repositories" ((repos.map outcome).filterMap id), now⟩,
       repos.map (fun repo => "https://api.github.com/repos/" ++ username ++ "/" ++ repo)) := by
  unfold fetchGitHubRepos
  rcases h with h | h
  · simp [Nat.not_lt.mpr h]
  · by_cases hwin : now - st.lastFetch < cacheDuration
    · simp [hwin, h]
    · simp [hwin]

/-- After any completed call, the cache holds exactly the returned
result set. -/
theorem fetch_caches_result (outcome : String → Option Repo) (repos : List String)
    (now : Nat) (st : GHState) :
    mapGet (fetchGitHubRepos outcome repos now st).2.1.cache "repositories" =
      some (fetchGitHubRepos outcome repos now st).1 := by
  by_cases hwin : now - st.lastFetch < cacheDuration
  · cases hc : mapGet st.cache "repositories" with
    | some cached => rw [fetchGitHubRepos_fresh outcome repos now st cached hwin hc]; exact hc
    | none => rw [fetchGitHubRepos_miss outcome repos now st (Or.inr hc)]; exact mapGet_mapSet _ _ _
  · rw [fetchGitHubRepos_miss outcome repos now st (Or.inl (Nat.not_lt.mp hwin))]
    exact mapGet_mapSet _ _ _

/-- Claim C1: for every list of repository names, a second
`fetchGitHubRepos` call made while the cache window of the first call's
resulting state is still open issues zero network requests and returns
exactly the first call's result set (the state is also unchanged). -/
theorem second_call_within_window_uses_cache (outcome : String → Option Repo)
    (repos : List String) (now₁ now₂ : Nat) (st : GHState)
    (h : now₂ - (fetchGitHubRepos outcome repos now₁ st).2.1.lastFetch < cacheDuration) :
    fetchGitHubRepos outcome repos now₂ (fetchGitHubRepos outcome repos now₁ st).2.1 =
      ((fetchGitHubRepos outcome repos now₁ st).1,
       (fetchGitHubRepos outcome repos now₁ st).2.1, []) :=
  fetchGitHubRepos_fresh outcome repos now₂ _ _ h (fetch_caches_result outcome repos now₁ st)

/-- Witness for C1 at a concrete input: one repository succeeding with
5 stars, first call at t=0, second at t=1. -/
theorem second_call_within_window_uses_cache_witness :
    fetchGitHubRepos (fun _ => some ⟨"A", some 5, some 2, none⟩) ["A"] 1
        (fetchGitHubRepos (fun _ => some ⟨"A", some 5, some 2, none⟩) ["A"] 0
          initialGithubState).2.1 =
      ((fetchGitHubRepos (fun _ => some ⟨"A", some 5, some 2, none⟩) ["A"] 0
          initialGithubState).1,
       (fetchGitHubRepos (fun _ => some ⟨"A", some 5, some 2, none⟩) ["A"] 0
          initialGithubState).2.1, []) :=
  second_call_within_window_uses_cache (fun _ => some ⟨"A", some 5, some 2, none⟩)
    ["A"] 0 1 initialGithubState (by decide)

/-- Claim C2: for every repository list, if every per-repository request
fails (its promise chain settles to `null`), a call that takes the fetch
path resolves to the empty sequence.  It cannot throw or reject: the
embedding is a total function, mirroring the per-request `.catch` that
converts every failure to `null` before the `Promise.all` join. -/
theorem all_failures_resolve_empty (outcome : String → Option Repo)
    (repos : List String) (now : Nat) (st : GHState)
    (hmiss : cacheMiss st now) (hfail : ∀ r ∈ repos, outcome r = none) :
    (fetchGitHubRepos outcome repos now st).1 = [] := by
  rw [fetchGitHubRepos_miss outcome repos now st hmiss]
  refine List.filterMap_eq_nil_iff.mpr ?_
  intro x hx
  rcases List.mem_map.mp hx with ⟨r, hr, rfl⟩
  exact hfail r hr

/-- Witness for C2 at a concrete input: two repositories, both failing,
from the initial state. -/
theorem all_failures_resolve_empty_witness :
    (fetchGitHubRepos (fun _ => none) ["a", "b"] 0 initialGithubState).1 = [] :=
  all_failures_resolve_empty (fun _ => none) ["a", "b"] 0 initialGithubState
    (by decide) (by decide)

/-- Claim C8: for every repository list, a call that takes the fetch path
(cache window elapsed, or no prior fetch stored) issues exactly one
request per repository name, in order, each against
`https://api.github.com/repos/<username>/<name>` with
`username = "karimhelal"`. -/
theorem miss_issues_one_request_per_repo (outcome : String → Option Repo)
    (repos : List String) (now : Nat) (st : GHState) (h : cacheMiss st now) :
    (fetchGitHubRepos outcome repos now st).2.2 =
      repos.map (fun repo => "https://api.github.com/repos/" ++ username ++ "/" ++ repo) ∧
    (fetchGitHubRepos outcome repos now st).2.2.length = repos.length := by
  rw [fetchGitHubRepos_miss outcome repos now st h]
  exact ⟨rfl, List.length_map repos _⟩

/-- Witness for C8 at a concrete input: two repositories fetched from
the initial state (no prior fetch). -/
theorem miss_issues_one_request_per_repo_witness :
    (fetchGitHubRepos (fun _ => none) ["a", "b"] 0 initialGithubState).2.2 =
      (["a", "b"] : List String).map
        (fun repo => "https://api.github.com/repos/" ++ username ++ "/" ++ repo) ∧
    (fetchGitHubRepos (fun _ => none) ["a", "b"] 0 initialGithubState).2.2.length =
      (["a", "b"] : List String).length :=
  miss_issues_one_request_per_repo (fun _ => none) ["a", "b"] 0 initialGithubState
    (by decide)

/-- Claim C9: on the fetch path the returned sequence is the input list
of repositories with the failed (null) outcomes removed, in input order:
the `Promise.all` join is positional, so for any decomposition of the
input around a successful repository, that repository's summary sits
between the surviving summaries of the earlier and the later names. -/
theorem result_preserves_input_order (outcome : String → Option Repo)
    (repos : List String) (now : Nat) (st : GHState) (h : cacheMiss st now) :
    (fetchGitHubRepos outcome repos now st).1 = repos.filterMap outcome ∧
    ∀ pre r post, repos = pre ++ r :: post →
      (fetchGitHubRepos outcome repos now st).1 =
        pre.filterMap outcome ++ (outcome r).toList ++ post.filterMap outcome := by
  have h1 : (fetchGitHubRepos outcome repos now st).1 = repos.filterMap outcome := by
    rw [fetchGitHubRepos_miss outcome repos now st h]
    simp [List.filterMap_map]
  refine ⟨h1, ?_⟩
  intro pre r post hsplit
  rw [h1, hsplit, List.filterMap_append, List.filterMap_cons]
  cases outcome r <;> simp

/-- A concrete transport for the C9 witness: repository "b" fails, the
others succeed. -/
def splitOutcome : String → Option Repo :=
  fun r => if r = "b" then none else some ⟨r, some 1, some 1, none⟩

/-- Witness for C9 at a concrete input: of `["a", "b", "c"]` only "b"
fails, and the result is the survivors of the prefix, then "b"'s (empty)
contribution, then the survivors of the suffix. -/
theorem result_preserves_input_order_witness :
    (fetchGitHubRepos splitOutcome ["a", "b", "c"] 0 initialGithubState).1 =
      (["a"] : List String).filterMap splitOutcome ++ (splitOutcome "b").toList ++
        (["c"] : List String).filterMap splitOutcome :=
  (result_preserves_input_order splitOutcome ["a", "b", "c"] 0 initialGithubState
      (by decide)).2 ["a"] "b" ["c"] rfl

/-- Claim C4: the cache state machine.  After any completed call the
state is fresh at that call's time — in particular a stale-to-fresh
transition happens on any completed fetch, an empty result included
(third conjunct: with every request failing, a later call within the
window returns the cached empty result with zero requests).  While
fresh, a call leaves the state bit-for-bit unchanged, so no operation
forces the fresh-to-stale transition early: only the clock moving past
`lastFetch + cacheDuration` ends freshness. -/
theorem cache_state_machine (outcome : String → Option Repo) (repos : List String)
    (now : Nat) (st : GHState) :
    isFresh (fetchGitHubRepos outcome repos now st).2.1 now ∧
    (isFresh st now → (fetchGitHubRepos outcome repos now st).2.1 = st) ∧
    (∀ now₂, (∀ r ∈ repos, outcome r = none) → cacheMiss st now →
      now₂ - now < cacheDuration →
      fetchGitHubRepos outcome repos now₂ (fetchGitHubRepos outcome repos now st).2.1 =
        ([], (fetchGitHubRepos outcome repos now st).2.1, [])) := by
  have hfresh : isFresh (fetchGitHubRepos outcome repos now st).2.1 now := by
    by_cases hwin : now - st.lastFetch < cacheDuration
    · cases hc : mapGet st.cache "repositories" with
      | some cached =>
        rw [fetchGitHubRepos_fresh outcome repos now st cached hwin hc]
        exact ⟨hwin, by rw [hc]; exact Option.some_ne_none cached⟩
      | none =>
        rw [fetchGitHubRepos_miss outcome repos now st (Or.inr hc)]
        refine ⟨?_, ?_⟩
        · show now - now < cacheDuration
          simp [cacheDuration]
        · rw [mapGet_mapSet]; exact Option.some_ne_none _
    · rw [fetchGitHubRepos_miss outcome repos now st (Or.inl (Nat.not_lt.mp hwin))]
      refine ⟨?_, ?_⟩
      · show now - now < cacheDuration
        simp [cacheDuration]
      · rw [mapGet_mapSet]; exact Option.some_ne_none _
  refine ⟨hfresh, ?_, ?_⟩
  · rintro ⟨hwin, hne⟩
    cases hc : mapGet st.cache "repositories" with
    | none => exact absurd hc hne
    | some cached => rw [fetchGitHubRepos_fresh outcome repos now st cached hwin hc]
  · intro now₂ hall hmiss hwin₂
    have hres : (fetchGitHubRepos outcome repos now st).1 = [] := by
      rw [fetchGitHubRepos_miss outcome repos now st hmiss]
      refine List.filterMap_eq_nil_iff.mpr ?_
      intro x hx
      rcases List.mem_map.mp hx with ⟨r, hr, rfl⟩
      exact hall r hr
    have hlf : (fetchGitHubRepos outcome repos now st).2.1.lastFetch = now := by
      rw [fetchGitHubRepos_miss outcome repos now st hmiss]
    have hcache := fetch_caches_result outcome repos now st
    rw [hres] at hcache
    exact fetchGitHubRepos_fresh outcome repos now₂ _ [] (by rw [hlf]; exact hwin₂) hcache

/-- Witness for C4 at concrete inputs: the freshness conjunct and the
identity conjunct at a fresh state (empty result cached at t=0), and the
cached-empty-replay conjunct from the initial state with every request
failing, replayed at t=5. -/
theorem cache_state_machine_witness :
    isFresh (fetchGitHubRepos (fun _ => none) ["a"] 0
        (⟨[("repositories", [])], 0⟩ : GHState)).2.1 0 ∧
    (fetchGitHubRepos (fun _ => none) ["a"] 0
        (⟨[("repositories", [])], 0⟩ : GHState)).2.1 =
      (⟨[("repositories", [])], 0⟩ : GHState) ∧
    fetchGitHubRepos (fun _ => none) ["a"] 5
        (fetchGitHubRepos (fun _ => none) ["a"] 0 initialGithubState).2.1 =
      ([], (fetchGitHubRepos (fun _ => none) ["a"] 0 initialGithubState).2.1, []) :=
  ⟨(cache_state_machine (fun _ => none) ["a"] 0 ⟨[("repositories", [])], 0⟩).1,
   (cache_state_machine (fun _ => none) ["a"] 0 ⟨[("repositories", [])], 0⟩).2.1
     (by decide),
   (cache_state_machine (fun _ => none) ["a"] 0 initialGithubState).2.2 5
     (by decide) (by decide) (by decide)⟩

/-!  The cache invariant of claim C5.  The only code that touches
`App.github` is `fetchGitHubRepos`, so a page session's cache history is
a fold of calls over the initial state. -/

/-- One invocation of `fetchGitHubRepos`: its time, its argument list,
and the settled per-request outcomes. -/
structure FetchCall where
  now : Nat
  repos : List String
  outcome : String → Option Repo

/-- The cache state after a sequence of `fetchGitHubRepos` calls. -/
def runFetches (calls : List FetchCall) (st : GHState) : GHState :=
  calls.foldl (fun s c => (fetchGitHubRepos c.outcome c.repos c.now s).2.1) st

/-- The whole batch is cached as one unit: the cache `Map` is empty or
holds exactly the single key "repositories" — never a per-repository
entry. -/
def singleBatchEntry (st : GHState) : Prop :=
  st.cache = [] ∨ ∃ v, st.cache = [("repositories", v)]

/-- One call preserves the single-entry shape of the cache. -/
theorem singleBatchEntry_step (outcome : String → Option Repo) (repos : List String)
    (now : Nat) (st : GHState) (h : singleBatchEntry st) :
    singleBatchEntry (fetchGitHubRepos outcome repos now st).2.1 := by
  by_cases hm : cacheMiss st now
  · rw [fetchGitHubRepos_miss outcome repos now st hm]
    rcases h with h | ⟨v, h⟩
    · right
      refine ⟨(repos.map outcome).filterMap id, ?_⟩
      rw [h]; rfl
    · right
      refine ⟨(repos.map outcome).filterMap id, ?_⟩
      rw [h]; simp [mapSet]
  · rcases Nat.lt_or_ge (now - st.lastFetch) cacheDuration with hwin | hwin
    · cases hc : mapGet st.cache "repositories" with
      | none => exact absurd (Or.inr hc) hm
      | some cached => rw [fetchGitHubRepos_fresh outcome repos now st cached hwin hc]; exact h
    · exact absurd (Or.inl hwin) hm

/-- Claim C5: at most one cached result set exists at any time.  After
every sequence of operations from the initial state the cache is empty
or a single entry under "repositories" (first conjunct: the invariant
holds after every operation); and a call taking the fetch path replaces
the cache wholesale with the single entry holding that call's whole
batch (second conjunct) — per-repository entries never exist. -/
theorem at_most_one_cache_entry :
    (∀ calls : List FetchCall, singleBatchEntry (runFetches calls initialGithubState)) ∧
    (∀ (outcome : String → Option Repo) (repos : List String) (now : Nat) (st : GHState),
      singleBatchEntry st → cacheMiss st now →
      (fetchGitHubRepos outcome repos now st).2.1.cache =
        [("repositories", (fetchGitHubRepos outcome repos now st).1)]) := by
  constructor
  · have haux : ∀ (calls : List FetchCall) (st : GHState), singleBatchEntry st →
        singleBatchEntry (runFetches calls st) := by
      intro calls
      induction calls with
      | nil => intro st h; exact h
      | cons c rest ih =>
        intro st h
        exact ih _ (singleBatchEntry_step c.outcome c.repos c.now st h)
    intro calls
    exact haux calls initialGithubState (Or.inl rfl)
  · intro outcome repos now st h hm
    rw [fetchGitHubRepos_miss outcome repos now st hm]
    rcases h with h | ⟨v, h⟩
    · rw [h]; rfl
    · rw [h]; simp [mapSet]

/-- Witness for C5: both conjuncts at concrete inputs — a two-call
history, and a wholesale replacement of a previously cached batch. -/
theorem at_most_one_cache_entry_witness :
    singleBatchEntry (runFetches
      [⟨0, ["a"], fun _ => none⟩,
       ⟨600000, ["a"], fun _ => some ⟨"a", some 1, none, none⟩⟩]
      initialGithubState) ∧
    (fetchGitHubRepos (fun _ => some ⟨"a", some 1, none, none⟩) ["a"] 600000
        (⟨[("repositories", [])], 0⟩ : GHState)).2.1.cache =
      [("repositories",
        (fetchGitHubRepos (fun _ => some ⟨"a", some 1, none, none⟩) ["a"] 600000
          (⟨[("repositories", [])], 0⟩ : GHState)).1)] :=
  ⟨at_most_one_cache_entry.1
     [⟨0, ["a"], fun _ => none⟩,
      ⟨600000, ["a"], fun _ => some ⟨"a", some 1, none, none⟩⟩],
   at_most_one_cache_entry.2 (fun _ => some ⟨"a", some 1, none, none⟩) ["a"] 600000
     ⟨[("repositories", [])], 0⟩ (Or.inr ⟨[], rfl⟩) (by decide)⟩

/-- The `reduce((sum, repo) => sum + (field || 0), 0)` pattern is the sum
of the per-repository values with missing fields contributing 0. -/
theorem foldl_add_getD (g : Repo → Option Nat) (l : List Repo) :
    ∀ n : Nat, l.foldl (fun sum repo => sum + (g repo).getD 0) n =
      n + (l.map (fun repo => (g repo).getD 0)).sum := by
  induction l with
  | nil => intro n; simp
  | cons r rest ih =>
    intro n
    simp only [List.foldl_cons, List.map_cons, List.sum_cons, ih]
    omega

/-- Claim C6: the rendered total star and fork counts equal the sums of
the corresponding per-repository counts over the latest fetched result
set (missing counts contributing 0), recomputed from that result set:
`initGitHubIntegration`'s writes end with a totals block computed from
the very sequence the fetch returned. -/
theorem totals_are_sums (outcome : String → Option Repo) (now : Nat) (st : GHState)
    (numCards : Nat) (hasStars hasForks : String → Bool) :
    (initGitHubIntegration outcome now st numCards hasStars hasForks true).1 =
      updateProjectStats numCards hasStars hasForks
          (fetchGitHubRepos outcome repositories now st).1 ++
        [DomWrite.totals
          (((fetchGitHubRepos outcome repositories now st).1.map
            (fun repo => repo.stargazers_count.getD 0)).sum)
          (((fetchGitHubRepos outcome repositories now st).1.map
            (fun repo => repo.forks_count.getD 0)).sum)
          (fetchGitHubRepos outcome repositories now st).1.length] := by
  unfold initGitHubIntegration updateGitHubStats
  simp only [if_pos trivial, List.append_cancel_left_eq]
  rw [foldl_add_getD (fun repo => repo.stargazers_count) _ 0,
    foldl_add_getD (fun repo => repo.forks_count) _ 0]
  simp

/-- Claim C7: a successful response with `stargazers_count` absent is
displayed as 0, not skipped — the per-repository star write carries the
value 0, and the repository contributes 0 stars to the totals block. -/
theorem missing_stars_display_zero (name : String) (fc : Option Nat) (u : Option String) :
    DomWrite.projectStars (getRepoSlugStr name) 0 ∈
      updateProjectStats 1 (fun _ => true) (fun _ => true)
        [⟨name, none, fc, u⟩] ∧
    updateGitHubStats true [⟨name, none, fc, u⟩] =
      [DomWrite.totals 0 (fc.getD 0) 1] := by
  constructor
  · cases u <;> simp [updateProjectStats, List.enum]
  · simp [updateGitHubStats]

/-- `updateProjectStats` never writes the "-" placeholder: its writes
are star values, fork values and update labels only. -/
theorem updateProjectStats_no_placeholder (numCards : Nat)
    (hasStars hasForks : String → Bool) (repoData : List Repo) (eid : String) :
    DomWrite.placeholder eid ∉ updateProjectStats numCards hasStars hasForks repoData := by
  intro hmem
  unfold updateProjectStats at hmem
  rw [List.mem_flatten] at hmem
  obtain ⟨l, hl, hmem⟩ := hmem
  rw [List.mem_map] at hl
  obtain ⟨p, _, rfl⟩ := hl
  split at hmem
  · simp at hmem
  · rw [List.mem_append, List.mem_append] at hmem
    rcases hmem with (h | h) | h
    · split at h <;> simp at h
    · split at h <;> simp at h
    · split at h <;> simp at h

/-- `updateGitHubStats` never writes the "-" placeholder: it writes the
totals block or nothing. -/
theorem updateGitHubStats_no_placeholder (hasContainer : Bool) (repoData : List Repo)
    (eid : String) :
    DomWrite.placeholder eid ∉ updateGitHubStats hasContainer repoData := by
  unfold updateGitHubStats
  split <;> simp

/-- Claim C3, amended: the "-" placeholder is written into the
per-repository star and fork elements exactly by `hideGitHubStats`,
which runs only in `initGitHubIntegration`'s catch branch, i.e. only if
an awaited step throws.  A total fetch failure (every repository failed)
does not throw — it resolves to the empty sequence — so the integration
renders a zero totals block and no per-repository values, and never
emits a placeholder write, whatever the outcomes. -/
theorem placeholder_only_in_catch_branch (ids : List String)
    (outcome : String → Option Repo) (now : Nat) (st : GHState) (numCards : Nat)
    (hasStars hasForks : String → Bool) (hasContainer : Bool) (eid : String) :
    hideGitHubStats ids = ids.map DomWrite.placeholder ∧
    DomWrite.placeholder eid ∉
      (initGitHubIntegration outcome now st numCards hasStars hasForks hasContainer).1 := by
  refine ⟨rfl, ?_⟩
  unfold initGitHubIntegration
  rw [List.mem_append]
  rintro (h | h)
  · exact updateProjectStats_no_placeholder _ _ _ _ _ h
  · exact updateGitHubStats_no_placeholder _ _ _ h

/-- Counterexample to claim C3 as stated, at a concrete input: with all
five repositories failing (total fetch failure) on a page with five
project cards, all stat elements present and the stats container
present, the integration's writes are exactly a zero totals block — no
"-" placeholder is written into any star or fork element. -/
theorem total_failure_writes_no_placeholder :
    (initGitHubIntegration (fun _ => none) 0 initialGithubState 5
        (fun _ => true) (fun _ => true) true).1 = [DomWrite.totals 0 0 0] := by
  decide

/-!  Shape of `getRepoSlug`'s output (claim C10): characters, no double
hyphen, no edge hyphen, idempotence. -/

/-- No two consecutive hyphens. -/
def noDoubleDash (l : List Char) : Prop :=
  l.Chain' (fun a b => ¬(a = '-' ∧ b = '-'))

theorem isAlnumChar_ne_dash (c : Char) (h : isAlnumChar c = true) : c ≠ '-' := by
  intro heq
  subst heq
  exact absurd h (by decide)

theorem collapseAux_mem (b : Bool) (l : List Char) :
    ∀ c ∈ collapseAux b l, isAlnumChar c = true ∨ c = '-' := by
  induction l generalizing b with
  | nil => intro c hc; simp [collapseAux] at hc
  | cons a cs ih =>
    intro c hc
    by_cases ha : isAlnumChar a
    · simp only [collapseAux, if_pos ha, List.mem_cons] at hc
      rcases hc with rfl | hc
      · exact Or.inl ha
      · exact ih false c hc
    · cases b with
      | true =>
        simp only [collapseAux, if_neg ha, if_pos rfl] at hc
        exact ih true c hc
      | false =>
        simp only [collapseAux, if_neg ha, if_neg Bool.false_ne_true, List.mem_cons] at hc
        rcases hc with rfl | hc
        · exact Or.inr rfl
        · exact ih true c hc

theorem collapseAux_true_head (l : List Char) :
    (collapseAux true l).head? ≠ some '-' := by
  induction l with
  | nil => simp [collapseAux]
  | cons a cs ih =>
    by_cases ha : isAlnumChar a
    · simp only [collapseAux, if_pos ha, List.head?_cons, ne_eq, Option.some.injEq]
      exact isAlnumChar_ne_dash a ha
    · simp only [collapseAux, if_neg ha, if_pos rfl]
      exact ih

theorem collapseAux_noDoubleDash (b : Bool) (l : List Char) :
    noDoubleDash (collapseAux b l) := by
  induction l generalizing b with
  | nil => simp [collapseAux, noDoubleDash]
  | cons a cs ih =>
    by_cases ha : isAlnumChar a
    · simp only [collapseAux, if_pos ha]
      rw [noDoubleDash, List.chain'_cons']
      refine ⟨?_, ih false⟩
      intro y _ hcon
      exact isAlnumChar_ne_dash a ha hcon.1
    · cases b with
      | true =>
        simp only [collapseAux, if_neg ha, if_pos rfl]
        exact ih true
      | false =>
        simp only [collapseAux, if_neg ha, if_neg Bool.false_ne_true]
        rw [noDoubleDash, List.chain'_cons']
        refine ⟨?_, ih true⟩
        rintro y hy ⟨-, rfl⟩
        exact collapseAux_true_head cs (Option.mem_def.mp hy)

theorem collapseAux_fix (l : List Char)
    (hmem : ∀ c ∈ l, isAlnumChar c = true ∨ c = '-')
    (hch : noDoubleDash l) :
    collapseAux false l = l ∧ (l.head? ≠ some '-' → collapseAux true l = l) := by
  induction l with
  | nil => exact ⟨rfl, fun _ => rfl⟩
  | cons a cs ih =>
    have hcs : ∀ c ∈ cs, isAlnumChar c = true ∨ c = '-' :=
      fun c hc => hmem c (List.mem_cons_of_mem a hc)
    have hch' : noDoubleDash cs := List.Chain'.tail hch
    rcases hmem a (List.mem_cons_self a cs) with ha | rfl
    · have h1 : collapseAux false cs = cs := (ih hcs hch').1
      constructor
      · simp only [collapseAux, if_pos ha, h1]
      · intro _
        simp only [collapseAux, if_pos ha, h1]
    · have hhead : cs.head? ≠ some '-' := by
        rw [noDoubleDash, List.chain'_cons'] at hch
        intro hh
        exact hch.1 '-' (Option.mem_def.mpr hh) ⟨rfl, rfl⟩
      have h2 : collapseAux true cs = cs := (ih hcs hch').2 hhead
      have hdash : ¬ isAlnumChar '-' = true := by decide
      constructor
      · simp only [collapseAux, if_neg hdash, if_neg Bool.false_ne_true, h2]
      · intro hcontra
        exact absurd rfl hcontra

theorem stripLead_mem (l : List Char) (c : Char) (h : c ∈ stripLead l) : c ∈ l := by
  cases l with
  | nil => simp [stripLead] at h
  | cons a rest =>
    simp only [stripLead] at h
    by_cases hda : a = '-'
    · rw [if_pos hda] at h
      exact List.mem_cons_of_mem a h
    · rwa [if_neg hda] at h

theorem stripLead_noDoubleDash (l : List Char) (h : noDoubleDash l) :
    noDoubleDash (stripLead l) := by
  cases l with
  | nil => exact h
  | cons a rest =>
    simp only [stripLead]
    by_cases hda : a = '-'
    · rw [if_pos hda]
      exact List.Chain'.tail h
    · rwa [if_neg hda]

theorem stripLead_head (l : List Char) (h : noDoubleDash l) :
    (stripLead l).head? ≠ some '-' := by
  cases l with
  | nil => simp [stripLead]
  | cons a rest =>
    simp only [stripLead]
    by_cases hda : a = '-'
    · rw [if_pos hda]
      rw [noDoubleDash, List.chain'_cons'] at h
      intro hh
      exact h.1 '-' (Option.mem_def.mpr hh) ⟨hda, rfl⟩
    · rw [if_neg hda]
      simpa using hda

theorem stripLead_getLast (l : List Char) (h : l.getLast? ≠ some '-') :
    (stripLead l).getLast? ≠ some '-' := by
  cases l with
  | nil => simp [stripLead]
  | cons a rest =>
    simp only [stripLead]
    by_cases hda : a = '-'
    · rw [if_pos hda]
      cases rest with
      | nil => simp
      | cons b rest' =>
        rw [List.getLast?_cons_cons] at h
        exact h
    · rwa [if_neg hda]

theorem stripLead_id (l : List Char) (h : l.head? ≠ some '-') : stripLead l = l := by
  cases l with
  | nil => rfl
  | cons a rest =>
    simp only [stripLead]
    rw [if_neg]
    intro heq
    exact h (by rw [heq]; rfl)

theorem noDoubleDash_reverse (l : List Char) (h : noDoubleDash l) :
    noDoubleDash l.reverse := by
  rw [noDoubleDash, List.chain'_reverse]
  exact List.Chain'.imp (fun a b hab hcon => hab ⟨hcon.2, hcon.1⟩) h

theorem getRepoSlug_props (s : List Char) :
    (∀ c ∈ getRepoSlug s, isAlnumChar c = true ∨ c = '-') ∧
    noDoubleDash (getRepoSlug s) ∧
    (getRepoSlug s).head? ≠ some '-' ∧
    (getRepoSlug s).getLast? ≠ some '-' := by
  have hch0 : noDoubleDash (collapseAux false (s.map jsToLower)) :=
    collapseAux_noDoubleDash false _
  have hch1 : noDoubleDash (stripLead (collapseAux false (s.map jsToLower))) :=
    stripLead_noDoubleDash _ hch0
  have hh1 : (stripLead (collapseAux false (s.map jsToLower))).head? ≠ some '-' :=
    stripLead_head _ hch0
  have hch1r : noDoubleDash (stripLead (collapseAux false (s.map jsToLower))).reverse :=
    noDoubleDash_reverse _ hch1
  refine ⟨?_, ?_, ?_, ?_⟩
  · intro c hc
    rw [getRepoSlug, List.mem_reverse] at hc
    have hc2 := stripLead_mem _ _ hc
    rw [List.mem_reverse] at hc2
    exact collapseAux_mem false _ c (stripLead_mem _ _ hc2)
  · rw [getRepoSlug]
    exact noDoubleDash_reverse _ (stripLead_noDoubleDash _ hch1r)
  · rw [getRepoSlug, List.head?_reverse]
    apply stripLead_getLast
    rw [List.getLast?_reverse]
    exact hh1
  · rw [getRepoSlug, List.getLast?_reverse]
    exact stripLead_head _ hch1r

theorem jsToLower_fix (c : Char) (h : isAlnumChar c = true ∨ c = '-') :
    jsToLower c = c := by
  rcases h with h | rfl
  · have hcond : ¬(65 ≤ c.toNat ∧ c.toNat ≤ 90) := by
      simp only [isAlnumChar, Bool.or_eq_true, Bool.and_eq_true,
        decide_eq_true_eq] at h
      omega
    rw [jsToLower, if_neg hcond]
  · decide

theorem map_jsToLower_fix (l : List Char)
    (h : ∀ c ∈ l, isAlnumChar c = true ∨ c = '-') :
    l.map jsToLower = l := by
  induction l with
  | nil => rfl
  | cons a rest ih =>
    rw [List.map_cons, jsToLower_fix a (h a (List.mem_cons_self a rest)),
      ih (fun c hc => h c (List.mem_cons_of_mem a hc))]

theorem getRepoSlug_fixed (l : List Char)
    (hmem : ∀ c ∈ l, isAlnumChar c = true ∨ c = '-')
    (hch : noDoubleDash l)
    (hh : l.head? ≠ some '-')
    (hl : l.getLast? ≠ some '-') :
    getRepoSlug l = l := by
  rw [getRepoSlug, map_jsToLower_fix l hmem, (collapseAux_fix l hmem hch).1,
    stripLead_id l hh, stripLead_id]
  · exact List.reverse_reverse l
  · rw [List.head?_reverse]
    exact hl

/-- Claim C10: every output of `getRepoSlug` is a string over lowercase
ASCII letters, digits and hyphens with no leading hyphen, no trailing
hyphen and no two consecutive hyphens, and `getRepoSlug` is idempotent:
applying it to its own output returns the output unchanged. -/
theorem getRepoSlug_shape_and_idempotent (s : List Char) :
    (∀ c ∈ getRepoSlug s, isAlnumChar c = true ∨ c = '-') ∧
    (getRepoSlug s).head? ≠ some '-' ∧
    (getRepoSlug s).getLast? ≠ some '-' ∧
    noDoubleDash (getRepoSlug s) ∧
    getRepoSlug (getRepoSlug s) = getRepoSlug s := by
  obtain ⟨h1, h2, h3, h4⟩ := getRepoSlug_props s
  exact ⟨h1, h3, h4, h2, getRepoSlug_fixed _ h1 h2 h3 h4⟩

/-- Witness for the amended C3 at a concrete input: one stat element id,
all requests failing, every target element present. -/
theorem placeholder_only_in_catch_branch_witness :
    hideGitHubStats ["portfolio-stars"] =
      (["portfolio-stars"] : List String).map DomWrite.placeholder ∧
    DomWrite.placeholder "portfolio-stars" ∉
      (initGitHubIntegration (fun _ => none) 0 initialGithubState 5
        (fun _ => true) (fun _ => true) true).1 :=
  placeholder_only_in_catch_branch ["portfolio-stars"] (fun _ => none) 0
    initialGithubState 5 (fun _ => true) (fun _ => true) true "portfolio-stars"

/-- Witness for C6 at a concrete input: one repository with 3 stars and
4 forks fetched from the initial state. -/
theorem totals_are_sums_witness :
    (initGitHubIntegration (fun _ => some ⟨"x", some 3, some 4, none⟩) 0
        initialGithubState 0 (fun _ => false) (fun _ => false) true).1 =
      updateProjectStats 0 (fun _ => false) (fun _ => false)
          (fetchGitHubRepos (fun _ => some ⟨"x", some 3, some 4, none⟩)
            repositories 0 initialGithubState).1 ++
        [DomWrite.totals
          (((fetchGitHubRepos (fun _ => some ⟨"x", some 3, some 4, none⟩)
              repositories 0 initialGithubState).1.map
            (fun repo => repo.stargazers_count.getD 0)).sum)
          (((fetchGitHubRepos (fun _ => some ⟨"x", some 3, some 4, none⟩)
              repositories 0 initialGithubState).1.map
            (fun repo => repo.forks_count.getD 0)).sum)
          (fetchGitHubRepos (fun _ => some ⟨"x", some 3, some 4, none⟩)
            repositories 0 initialGithubState).1.length] :=
  totals_are_sums (fun _ => some ⟨"x", some 3, some 4, none⟩) 0 initialGithubState
    0 (fun _ => false) (fun _ => false)

/-- Witness for C7 at a concrete input: a repository named "My Repo"
with `stargazers_count` absent and 7 forks. -/
theorem missing_stars_display_zero_witness :
    DomWrite.projectStars (getRepoSlugStr "My Repo") 0 ∈
      updateProjectStats 1 (fun _ => true) (fun _ => true)
        [⟨"My Repo", none, some 7, none⟩] ∧
    updateGitHubStats true [⟨"My Repo", none, some 7, none⟩] =
      [DomWrite.totals 0 ((some 7 : Option Nat).getD 0) 1] :=
  missing_stars_display_zero "My Repo" (some 7) none

/-- Witness for C10 at a concrete input: the shape and idempotence
properties at the repository name "Fifa-World-Cup-Qatar-2022". -/
theorem getRepoSlug_shape_and_idempotent_witness :
    (∀ c ∈ getRepoSlug ("Fifa-World-Cup-Qatar-2022".data),
      isAlnumChar c = true ∨ c = '-') ∧
    (getRepoSlug ("Fifa-World-Cup-Qatar-2022".data)).head? ≠ some '-' ∧
    (getRepoSlug ("Fifa-World-Cup-Qatar-2022".data)).getLast? ≠ some '-' ∧
    noDoubleDash (getRepoSlug ("Fifa-World-Cup-Qatar-2022".data)) ∧
    getRepoSlug (getRepoSlug ("Fifa-World-Cup-Qatar-2022".data)) =
      getRepoSlug ("Fifa-World-Cup-Qatar-2022".data) :=
  getRepoSlug_shape_and_idempotent ("Fifa-World-Cup-Qatar-2022".data)
